import Mathlib

/-
Verification of the CSV grid engine in `csvplugin.py`: the cell/grid data
model, the quoted-field row parser, the raw and expanded formatters, the
numeric-aware comparator and the column sort built on it, the trailing-column
trimmer, the coordinate-range resolver of the expression grammar, and the
expression-evaluation pass.

Machine floats are modelled as exact rationals: Python's `float(text)` keeps
the value of a finite decimal literal up to binary rounding, which is
abstracted away here (the decimal value is kept exactly); the `inf`/`nan`
spellings and digit-group underscores accepted by Python are not modelled.
Python's `sorted` is modelled by the path CPython's listsort takes for short
lists (fewer than 64 elements): detect the initial run with `count_run` —
reversing a strictly descending one in place — then binary-insert the
remaining elements with the exact probe sequence of `binarysort`; the merge
machinery used for longer lists is not modelled, and no theorem here
evaluates the sort on 64 or more rows.  `reverse=True` is realised — as in
CPython — by reversing the list before and after an ascending sort.
-/

set_option linter.unusedVariables false

/-- One parsed field (`CSVValue`): its text and its line-local character span. -/
structure CSVValue where
  text : String
  first_char_index : Nat := 0
  last_char_index : Nat := 0
  deriving Repr, DecidableEq

/-- The characters stripped by Python's `str.strip()` (ASCII range). -/
def isPySpace (c : Char) : Bool :=
  c == ' ' || c == '\t' || c == '\n' || c == '\x0d' || c == '\x0b' || c == '\x0c'

/-- Python's `str.strip()`: drop leading and trailing whitespace. -/
def pyStrip (l : List Char) : List Char :=
  ((l.dropWhile isPySpace).reverse.dropWhile isPySpace).reverse

/-- Value of a digit string (the digits of `int(...)`). -/
def natOfDigits (l : List Char) : Nat :=
  l.foldl (fun n c => 10 * n + (c.toNat - 48)) 0

/-- An exact number kept as an unreduced fraction `num / den` with `den > 0`
(a product of powers of ten as produced by the float parser).  Normalized `ℚ`
arithmetic does not reduce inside the kernel, so the embedding computes on
these pairs and only the specification statements read them back into `ℚ`. -/
abbrev PyNum := Int × Nat

/-- The rational value of an exact fraction (used in statements only). -/
def PyNum.toRat (p : PyNum) : ℚ :=
  (p.1 : ℚ) / (p.2 : ℚ)

/-- An optional leading sign, as accepted by Python's numeric literals. -/
def takeSign : List Char → (Int × List Char)
  | '+' :: r => (1, r)
  | '-' :: r => (-1, r)
  | l => (1, l)

/-- Exponent tail of a float literal: optional sign, then at least one digit;
a positive exponent scales the numerator, a negative one the denominator. -/
def pyExpTail (mnum : Int) (mden : Nat) (r : List Char) : Option PyNum :=
  let (esgn, r1) := takeSign r
  let eds := r1.takeWhile Char.isDigit
  let r2 := r1.dropWhile Char.isDigit
  if eds.isEmpty || !r2.isEmpty then none
  else if esgn ≥ 0 then some (mnum * (10 : Int) ^ natOfDigits eds, mden)
  else some (mnum, mden * 10 ^ natOfDigits eds)

/-- Python's `float(text)` on finite decimal literals: optional surrounding
whitespace, optional sign, digits with an optional decimal point (at least one
digit overall), and an optional exponent.  The value is kept as an exact
fraction (see the file header for the abstraction). -/
def pyFloat? (s : List Char) : Option PyNum :=
  let t := pyStrip s
  let (sgn, t1) := takeSign t
  let intPart := t1.takeWhile Char.isDigit
  let t2 := t1.dropWhile Char.isDigit
  let (fracPart, t3) :=
    match t2 with
    | '.' :: r => (r.takeWhile Char.isDigit, r.dropWhile Char.isDigit)
    | _ => (([] : List Char), t2)
  if intPart.isEmpty && fracPart.isEmpty then none
  else
    let mnum : Int := sgn * (natOfDigits intPart * 10 ^ fracPart.length + natOfDigits fracPart)
    let mden : Nat := 10 ^ fracPart.length
    match t3 with
    | [] => some (mnum, mden)
    | 'e' :: r => pyExpTail mnum mden r
    | 'E' :: r => pyExpTail mnum mden r
    | _ => none

/-- Python's string comparison: lexicographic by code point; `-1`, `0`, `1`
is the sign produced by the two `if self.text > other.text / < other.text`
tests of `CSVValue.Compare`. -/
def pyStrCmpChars : List Char → List Char → Int
  | [], [] => 0
  | [], _ :: _ => -1
  | _ :: _, [] => 1
  | a :: as, b :: bs => if a < b then -1 else if b < a then 1 else pyStrCmpChars as bs

/-- `CSVValue.AsFloat`: the parsed value when `float(self.text)` succeeds. -/
def CSVValue.AsFloat (v : CSVValue) : Option PyNum :=
  pyFloat? v.text.data

/-- `CSVValue.Compare`: `a_float - b_float` (as an exact fraction) when both
texts parse as floats, otherwise the `-1/0/1` of Python's lexicographic string
comparison.  Callers only ever inspect the sign of the result, which is the
sign of the numerator since denominators are positive. -/
def CSVValue.Compare (v other : CSVValue) : PyNum :=
  match v.AsFloat, other.AsFloat with
  | some a, some b => (a.1 * b.2 - b.1 * a.2, a.2 * b.2)
  | _, _ => (pyStrCmpChars v.text.data other.text.data, 1)

/-- The grid (`CSVMatrix`): rows of cells, the cached maximum row length,
the validity flag, the delimiter, and the measured column widths
(an attribute created by `MeasureColumns`; empty before that). -/
structure CSVMatrix where
  rows : List (List CSVValue) := []
  num_columns : Nat := 0
  valid : Bool := false
  delimiter : Char := ','
  column_widths : List Nat := []
  deriving Repr, DecidableEq

/-- `CSVMatrix.Finalize`: no-op on zero rows (leaving `valid = false`),
otherwise records the maximum row length and marks the grid valid. -/
def CSVMatrix.Finalize (m : CSVMatrix) : CSVMatrix :=
  if m.rows.length = 0 then m
  else
    { m with
      num_columns := m.rows.foldl (fun acc row => if row.length > acc then row.length else acc) 0
      valid := true }

/-- `CSVMatrix.GetCellValue`: cell at `column_index`, or an empty cell on
`IndexError` (ragged rows read as empty). -/
def CSVMatrix.GetCellValue (row : List CSVValue) (column_index : Nat) : CSVValue :=
  match row.get? column_index with
  | some v => v
  | none => ⟨"", 0, 0⟩

/-- State of the `ParseRow` scanner: position, start of the current word,
accumulated word, the `insidequotes` flag, and the emitted columns. -/
structure ScanState where
  char_index : Nat
  first_char_index : Nat
  word : List Char
  insidequotes : Bool
  cols : List CSVValue
  deriving Repr, DecidableEq

/-- One non-pair step of the `ParseRow` scanner: the
`insidequotes` / quote / delimiter / plain-character branches. -/
def scanChar (delim c : Char) (s : ScanState) : ScanState :=
  if s.insidequotes then
    if c = '"' then { s with insidequotes := false, char_index := s.char_index + 1 }
    else { s with word := s.word ++ [c], char_index := s.char_index + 1 }
  else
    if c = '"' then { s with insidequotes := true, char_index := s.char_index + 1 }
    else if c = delim then
      { char_index := s.char_index + 1
        first_char_index := s.char_index + 1
        word := []
        insidequotes := false
        cols := s.cols ++ [⟨String.mk s.word, s.first_char_index, s.char_index⟩] }
    else { s with word := s.word ++ [c], char_index := s.char_index + 1 }

/-- The escaped-quote step: on `""` (checked before everything else, in any
quoting state) append one literal quote and advance two positions. -/
def scanPair (s : ScanState) : ScanState :=
  { s with word := s.word ++ ['"'], char_index := s.char_index + 2 }

/-- The `ParseRow` scan loop over the remaining characters, with the
two-character lookahead of the escaped-quote rule. -/
def parseRowAux (delim : Char) : List Char → ScanState → ScanState
  | [], s => s
  | [c], s => scanChar delim c s
  | c1 :: c2 :: rest, s =>
    if c1 = '"' ∧ c2 = '"' then parseRowAux delim rest (scanPair s)
    else parseRowAux delim (c2 :: rest) (scanChar delim c1 s)

/-- `CSVMatrix.ParseRow`: scan one line, then emit the accumulated word as the
final field unconditionally. -/
def CSVMatrix.ParseRow (m : CSVMatrix) (row : String) : List CSVValue :=
  let s := parseRowAux m.delimiter row.data ⟨0, 0, [], false, []⟩
  s.cols ++ [⟨String.mk s.word, s.first_char_index, s.char_index⟩]

/-- Python's `text.split(sep)` for a one-character separator: keeps empty
pieces and always returns at least one piece. -/
def pySplit (sep : Char) : List Char → List (List Char)
  | [] => [[]]
  | c :: rest =>
    match pySplit sep rest with
    | [] => [[]]
    | h :: t => if c = sep then [] :: h :: t else (c :: h) :: t

/-- `CSVMatrix.FromText`: split the source on newlines, parse every line
(including empty ones) as a row, then finalize. -/
def CSVMatrix.FromText (text : String) : CSVMatrix :=
  let matrix : CSVMatrix := {}
  CSVMatrix.Finalize
    { matrix with
      rows := (pySplit '\n' text.data).map fun line => matrix.ParseRow (String.mk line) }

/-- `text.replace(quote, quote + quote)`: double every quote character. -/
def dupQ : List Char → List Char
  | [] => []
  | c :: rest => if c = '"' then '"' :: '"' :: dupQ rest else c :: dupQ rest

/-- `CSVMatrix.QuoteText` on character lists: wrap in quotes, doubling embedded
quotes, exactly when the text contains the delimiter or a quote. -/
def quoteChars (delim : Char) (t : List Char) : List Char :=
  if delim ∈ t ∨ '"' ∈ t then '"' :: (dupQ t ++ ['"']) else t

/-- `CSVMatrix.QuoteText`. -/
def CSVMatrix.QuoteText (m : CSVMatrix) (text : String) : String :=
  String.mk (quoteChars m.delimiter text.data)

/-- One formatted line of `Format`: quoted cells joined by the delimiter
(the loop appends the delimiter after every cell but the last). -/
def formatLineChars (delim : Char) : List CSVValue → List Char
  | [] => []
  | [v] => quoteChars delim v.text.data
  | v :: v' :: vs => quoteChars delim v.text.data ++ delim :: formatLineChars delim (v' :: vs)

/-- Join pieces with a separator between adjacent pieces (the row loops append
the separator after every piece but the last). -/
def joinSep (sep : Char) : List (List Char) → List Char
  | [] => []
  | [l] => l
  | l :: l' :: ls => l ++ sep :: joinSep sep (l' :: ls)

/-- `CSVMatrix.Format`: lines joined by `\n` (the loop appends `\n` after
every row but the last). -/
def CSVMatrix.Format (m : CSVMatrix) : String :=
  String.mk (joinSep '\n' (m.rows.map fun row => formatLineChars m.delimiter row))

/-- `width > column_widths[i]` update of `MeasureColumns`.  Python indexes
`column_widths[column_index]` directly, raising `IndexError` if a row is longer
than `num_columns` (unreachable after `Finalize`); modelled with a default of 0
and an out-of-range `set` that is a no-op. -/
def measureCell (widths : List Nat) (column_index width : Nat) : List Nat :=
  if width > widths.getD column_index 0 then widths.set column_index width else widths

/-- Inner loop of `MeasureColumns` over one row. -/
def measureRowAux (delim : Char) : List CSVValue → Nat → List Nat → List Nat
  | [], _, widths => widths
  | v :: vs, column_index, widths =>
    measureRowAux delim vs (column_index + 1)
      (measureCell widths column_index (quoteChars delim v.text.data).length)

/-- `CSVMatrix.MeasureColumns`: start from `num_columns` zeros and take the
maximum quoted width of every cell, column by column. -/
def CSVMatrix.MeasureColumns (m : CSVMatrix) : CSVMatrix :=
  { m with
    column_widths :=
      m.rows.foldl (fun widths row => measureRowAux m.delimiter row 0 widths)
        (List.replicate m.num_columns 0) }

/-- Python's `str.ljust`: pad on the right with spaces up to `width`. -/
def ljustChars (s : List Char) (width : Nat) : List Char :=
  s ++ List.replicate (width - s.length) ' '

/-- One formatted line of `FormatExpanded`: every quoted cell — the last one
included — is padded to its column's measured width; the delimiter is appended
after every cell but the last. -/
def expandRowAux (delim : Char) (widths : List Nat) : List CSVValue → Nat → List Char
  | [], _ => []
  | [v], column_index => ljustChars (quoteChars delim v.text.data) (widths.getD column_index 0)
  | v :: v' :: vs, column_index =>
    ljustChars (quoteChars delim v.text.data) (widths.getD column_index 0)
      ++ delim :: expandRowAux delim widths (v' :: vs) (column_index + 1)

/-- `CSVMatrix.FormatExpanded`: run `MeasureColumns` first, then render each
row with cells padded to the measured widths, lines joined by `\n`. -/
def CSVMatrix.FormatExpanded (m : CSVMatrix) : String :=
  let m' := m.MeasureColumns
  String.mk (joinSep '\n' (m'.rows.map fun row => expandRowAux m'.delimiter m'.column_widths row 0))

/-- `SortDirection.Ascending`. -/
def SortDirection.Ascending : Nat := 1

/-- `SortDirection.Descending`. -/
def SortDirection.Descending : Nat := 2

/-- The ascending case of CPython's `count_run`: extend the run while the
next element is not strictly less than the current one (`¬ (a[k+1] < a[k])`),
using only `__lt__`. -/
def ascRun (lt : α → α → Bool) : α → List α → List α × List α
  | x, [] => ([x], [])
  | x, y :: ys =>
    if lt y x then ([x], y :: ys)
    else
      let (r, rest) := ascRun lt y ys
      (x :: r, rest)

/-- The descending case of CPython's `count_run`: extend the run while the
next element is strictly less than the current one (`a[k+1] < a[k]`). -/
def descRun (lt : α → α → Bool) : α → List α → List α × List α
  | x, [] => ([x], [])
  | x, y :: ys =>
    if lt y x then
      let (r, rest) := descRun lt y ys
      (x :: r, rest)
    else ([x], y :: ys)

/-- CPython's `count_run`: the initial run is the longest non-decreasing
prefix, or — when the second element compares strictly less than the first —
the longest strictly descending prefix, which is reversed in place.  With a
consistent comparator the strictness keeps reversal stable; with this
program's non-transitive comparator a "strictly descending by adjacent
comparisons" run can contain tied elements, which the reversal swaps. -/
def countRun (lt : α → α → Bool) : List α → List α × List α
  | [] => ([], [])
  | [x] => ([x], [])
  | x :: y :: ys =>
    if lt y x then
      let (r, rest) := descRun lt y ys
      ((x :: r).reverse, rest)
    else
      let (r, rest) := ascRun lt y ys
      (x :: r, rest)

/-- The binary search of CPython's `binarysort`, with its exact probe
sequence: `p = l + (r - l)/2`; `pivot < a[p]` moves `r` to `p`, otherwise `l`
to `p + 1`.  Each step shrinks `r - l` by at least one, so the extra fuel
argument (called with `r - l`) only bounds the loop and is never exhausted. -/
def binSearchAux (lt : α → α → Bool) (a : List α) (pivot : α) : Nat → Nat → Nat → Nat
  | 0, l, _r => l
  | fuel + 1, l, r =>
    if l < r then
      let p := l + (r - l) / 2
      if lt pivot (a.getD p pivot) then binSearchAux lt a pivot fuel l p
      else binSearchAux lt a pivot fuel (p + 1) r
    else l

/-- CPython's `binarysort`: insert each remaining element into the sorted
prefix at the position found by the binary search. -/
def binarysort (lt : α → α → Bool) : List α → List α → List α
  | s, [] => s
  | s, x :: xs =>
    let pos := binSearchAux lt s x s.length 0 s.length
    binarysort lt (s.take pos ++ x :: s.drop pos) xs

/-- Ascending `list.sort` as CPython performs it on lists of fewer than 64
elements: detect the initial run (reversing a strictly descending one), then
binary-insert the rest.  For 64 or more elements CPython instead merges runs
(timsort proper); that path is not modelled, and no theorem here evaluates
the sort on lists that long. -/
def pySortAsc (lt : α → α → Bool) (l : List α) : List α :=
  let (run, rest) := countRun lt l
  binarysort lt run rest

/-- Python's `sorted(key=..., reverse=...)`: `reverse=True` is realised by
reversing the list before and after the ascending sort, exactly as CPython's
`listsort` does. -/
def pySorted (lt : α → α → Bool) (reverse : Bool) (l : List α) : List α :=
  if reverse then (pySortAsc lt l.reverse).reverse else pySortAsc lt l

/-- `self.Compare(other) < 0`: the sign test on the exact fraction is the sign
of its numerator (denominators are positive). -/
def CSVValue.lt (v other : CSVValue) : Bool :=
  decide ((v.Compare other).1 < 0)

/-- `self.Compare(other) == 0`. -/
def CSVValue.eq (v other : CSVValue) : Bool :=
  decide ((v.Compare other).1 = 0)

/-- The `Compare.__lt__` used as sort key: compare the cells of the sort column
(ragged rows read as empty cells). -/
def rowCompareLt (column_index : Nat) (a b : List CSVValue) : Bool :=
  (CSVMatrix.GetCellValue a column_index).lt (CSVMatrix.GetCellValue b column_index)

/-- `CSVMatrix.SortByColumn`: sort the rows (or `rows[1:]` when `use_header`)
with Python's `sorted` under the column comparator; `Descending` sets
`reverse`. -/
def CSVMatrix.SortByColumn (m : CSVMatrix) (column_index direction : Nat) (use_header : Bool) :
    CSVMatrix :=
  let reverse := direction == SortDirection.Descending
  if use_header then
    { m with rows := m.rows.take 1 ++ pySorted (rowCompareLt column_index) reverse (m.rows.drop 1) }
  else
    { m with rows := pySorted (rowCompareLt column_index) reverse m.rows }

/-- The loop of `DeleteTrailingColumns` computing `last_column_index`: starts
at 0 and is set to every index whose cell has non-empty stripped text. -/
def lastIdxAux (p : CSVValue → Bool) : List CSVValue → Nat → Nat → Nat
  | [], _, acc => acc
  | v :: vs, column_index, acc => lastIdxAux p vs (column_index + 1) (if p v then column_index else acc)

/-- `len(value.text.strip()) > 0`. -/
def stripNonempty (v : CSVValue) : Bool :=
  decide (0 < (pyStrip v.text.data).length)

/-- `CSVMatrix.DeleteTrailingColumns`: per row, truncate to one past
`last_column_index`.  The `column_index` parameter of the source is shadowed by
the loop variable and never used. -/
def CSVMatrix.DeleteTrailingColumns (m : CSVMatrix) (column_index : Nat) : CSVMatrix :=
  { m with rows := m.rows.map fun row => row.take (lastIdxAux stripNonempty row 0 0 + 1) }

/-- `CSVMatrix.ApplyModifier`: `+`/`-` make the value relative to the base. -/
def CSVMatrix.ApplyModifier (m : CSVMatrix) (value : Int) (mod : Option Char) (base_value : Int) :
    Int :=
  if mod = some '+' then base_value + value
  else if mod = some '-' then base_value - value
  else value

/-- `CSVMatrix.GetCoordinateRange`: with a colon, a missing begin is 0 and a
missing end is `len(self.rows)` — the row count, whichever axis the call is
for; without a colon, a single (possibly relative) coordinate, and a missing
begin addresses the base coordinate itself. -/
def CSVMatrix.GetCoordinateRange (m : CSVMatrix) (begin_mod : Option Char) (begin_val : Option Nat)
    (delim : Bool) (end_mod : Option Char) (end_val : Option Nat) (base_value : Int) : Int × Int :=
  if delim then
    let b : Int :=
      match begin_val with
      | none => 0
      | some n => m.ApplyModifier n begin_mod base_value
    let e : Int :=
      match end_val with
      | none => (m.rows.length : Int)
      | some n => m.ApplyModifier n end_mod base_value
    (b, e)
  else
    match begin_val with
    | none => (base_value, base_value + 1)
    | some n =>
      let b := m.ApplyModifier n begin_mod base_value
      (b, b + 1)

/-- The groups of a successful `EXPRESSION_RE` match, plus `len(group(0))`. -/
structure ExprMatch where
  row_begin_mod : Option Char := none
  row_begin : Option Nat := none
  row_delim : Bool := false
  row_end_mod : Option Char := none
  row_end : Option Nat := none
  column_begin_mod : Option Char := none
  column_begin : Option Nat := none
  column_delim : Bool := false
  column_end_mod : Option Char := none
  column_end : Option Nat := none
  direction : Option Char := none
  match_len : Nat := 0
  deriving Repr, DecidableEq

/-- A resolved target range `(row_begin, row_end, column_begin, column_end)`. -/
abbrev CoordRange := Int × Int × Int × Int

/-- `CSVMatrix.GetRowColumnCoordinateRange`: resolve the row axis then the
column axis, each through `GetCoordinateRange` with its own base coordinate. -/
def CSVMatrix.GetRowColumnCoordinateRange (m : CSVMatrix) (coordinate_match : ExprMatch)
    (base_row_index base_column_index : Int) : CoordRange :=
  let row_range := m.GetCoordinateRange coordinate_match.row_begin_mod coordinate_match.row_begin
    coordinate_match.row_delim coordinate_match.row_end_mod coordinate_match.row_end base_row_index
  let column_range := m.GetCoordinateRange coordinate_match.column_begin_mod
    coordinate_match.column_begin coordinate_match.column_delim coordinate_match.column_end_mod
    coordinate_match.column_end base_column_index
  (row_range.1, row_range.2, column_range.1, column_range.2)

/-- `CSVMatrix.ApplyDirectionOffsetToRange`: `^`/`v` shift the row range,
`<`/`>` the column range, by one step. -/
def CSVMatrix.ApplyDirectionOffsetToRange (m : CSVMatrix) (direction_match : ExprMatch)
    (coord_range : CoordRange) : CoordRange :=
  if direction_match.direction = some '^' then
    (coord_range.1 - 1, coord_range.2.1 - 1, coord_range.2.2.1, coord_range.2.2.2)
  else if direction_match.direction = some 'v' then
    (coord_range.1 + 1, coord_range.2.1 + 1, coord_range.2.2.1, coord_range.2.2.2)
  else if direction_match.direction = some '<' then
    (coord_range.1, coord_range.2.1, coord_range.2.2.1 - 1, coord_range.2.2.2 - 1)
  else if direction_match.direction = some '>' then
    (coord_range.1, coord_range.2.1, coord_range.2.2.1 + 1, coord_range.2.2.2 + 1)
  else coord_range

/-- Greedy run of digits (a `\d+` group): `none` when there is no digit. -/
def takeDigits (l : List Char) : Option Nat × List Char :=
  let ds := l.takeWhile Char.isDigit
  if ds.isEmpty then (none, l) else (some (natOfDigits ds), l.dropWhile Char.isDigit)

/-- An optional `[+-]` group. -/
def takeMod : List Char → Option Char × List Char
  | '+' :: r => (some '+', r)
  | '-' :: r => (some '-', r)
  | l => (none, l)

/-- An optional literal character group. -/
def takeLit (c : Char) (l : List Char) : Bool × List Char :=
  match l with
  | x :: r => if x = c then (true, r) else (false, l)
  | [] => (false, l)

/-- One axis of the bracketed spec:
`[+-]? \d+? :? [+-]? \d+?`, matched greedily left to right.  Since every
group consumes a character class disjoint from what the following groups can
start with, greedy matching without backtracking computes exactly the groups
of the regular expression. -/
def matchAxis (l : List Char) :
    (Option Char × Option Nat × Bool × Option Char × Option Nat) × List Char :=
  let (bm, l1) := takeMod l
  let (bv, l2) := takeDigits l1
  let (dl, l3) := takeLit ':' l2
  let (em, l4) := takeMod l3
  let (ev, l5) := takeDigits l4
  ((bm, bv, dl, em, ev), l5)

/-- The optional bracket group of `EXPRESSION_RE`: `[`, the row axis, an
optional comma, the column axis, `]`.  `none` when the whole group fails (the
regex then retries from the start without it). -/
def matchBracket (l : List Char) : Option (ExprMatch × List Char) :=
  match l with
  | '[' :: r =>
    match matchAxis r with
    | ((rbm, rbv, rdl, rem, rev), r1) =>
      let (_, r2) := takeLit ',' r1
      match matchAxis r2 with
      | ((cbm, cbv, cdl, cem, cev), r3) =>
        match r3 with
        | ']' :: r4 =>
          some (⟨rbm, rbv, rdl, rem, rev, cbm, cbv, cdl, cem, cev, none, 0⟩, r4)
        | _ => none
  | _ => none

/-- `EXPRESSION_RE.match(text)`: the optional bracket spec, an optional
direction marker `[<>v^]`, then a mandatory `=`; anchored at the start.
`match_len` is `len(group(0))`. -/
def pyMatchExpression (t : List Char) : Option ExprMatch :=
  let (em0, r0) :=
    match matchBracket t with
    | some (e, r) => (e, r)
    | none => (({} : ExprMatch), t)
  let (dir, r1) :=
    match r0 with
    | c :: r => if c = '<' ∨ c = '>' ∨ c = 'v' ∨ c = '^' then (some c, r) else ((none : Option Char), r0)
    | [] => ((none : Option Char), r0)
  match r1 with
  | '=' :: r2 => some { em0 with direction := dir, match_len := t.length - r2.length }
  | _ => none

/-- One term of the modelled expression body: an integer literal or one of the
bound variables `row`, `col`, `frow`, `fcol`, with surrounding whitespace. -/
def parseTerm (l : List Char) (row col frow fcol : Int) : Option Int :=
  let t := pyStrip l
  if t ≠ [] ∧ t.all Char.isDigit then some (natOfDigits t)
  else if t = "row".data then some row
  else if t = "col".data then some col
  else if t = "frow".data then some frow
  else if t = "fcol".data then some fcol
  else none

/-- Models the source's host-language `eval(str(expression), None, l)` —
followed by `str(result)` — for the expression forms this development
exercises: a single-quoted string literal (no escapes or embedded quotes),
or a `+`-sum of integer literals and the bound variables `row`, `col`,
`frow`, `fcol`.  Anything else takes the exception branch of the source,
whose `str(e)` message is modelled as an error string.  The numeric snapshot
matrix `m` is in scope in the source but not referenced by these forms. -/
def evalExpr (expression : String) (row col frow fcol : Int) : String :=
  let t := pyStrip expression.data
  match t with
  | '\'' :: rest =>
    if rest ≠ [] ∧ rest.getLast? = some '\'' ∧ ¬ '\'' ∈ rest.dropLast then String.mk rest.dropLast
    else "error: " ++ expression
  | _ =>
    match (pySplit '+' t).mapM (fun term => parseTerm term row col frow fcol) with
    | some vals => toString vals.sum
    | none => "error: " ++ expression

/-- The numeric snapshot `m = numpy.zeros((len(rows), num_columns))` filled
with every cell's float value (0 for non-numeric cells).  A row longer than
`num_columns` would raise in the source (unreachable after `Finalize`); its
extra cells are ignored here. -/
def buildSnapshot (m : CSVMatrix) : List (List PyNum) :=
  m.rows.map fun row =>
    (List.range m.num_columns).map fun column_index =>
      match (CSVMatrix.GetCellValue row column_index).AsFloat with
      | some v => v
      | none => ((0 : Int), 1)

/-- `while target_range[1] >= len(self.rows): self.rows.append([])`. -/
def growRows (rows : List (List CSVValue)) (row_end : Int) : List (List CSVValue) :=
  rows ++ List.replicate (row_end + 1 - rows.length).toNat []

/-- `while target_range[3] >= len(self.column_widths): append(0)`. -/
def growWidths (widths : List Nat) (column_end : Int) : List Nat :=
  widths ++ List.replicate (column_end + 1 - widths.length).toNat 0

/-- Python list indexing: negative indices wrap from the end; `none` is the
`IndexError` case. -/
def pyIndex (n : Nat) (i : Int) : Option Nat :=
  let j := if i < 0 then i + n else i
  if 0 ≤ j ∧ j < n then some j.toNat else none

/-- `CSVValue(''.ljust(w))`: a fresh all-spaces cell. -/
def spacesCell (w : Nat) : CSVValue :=
  ⟨String.mk (List.replicate w ' '), 0, 0⟩

/-- `while target_column_index >= len(row): row.append(CSVValue(''.ljust(
self.column_widths[len(row)])))`: appends an all-spaces cell per missing
column, reading widths at the successive indices `len(row), len(row)+1, …`;
when the widths list runs out the pending append raises `IndexError`
(result flag `false`), keeping the cells appended so far. -/
def growRowCells (widths : List Nat) (row : List CSVValue) (tc : Int) : List CSVValue × Bool :=
  if tc < row.length then (row, true)
  else
    let need := (tc + 1 - row.length).toNat
    if row.length + need ≤ widths.length then
      (row ++ (List.range' row.length need).map fun k => spacesCell (widths.getD k 0), true)
    else
      let can := widths.length - row.length
      (row ++ (List.range' row.length can).map fun k => spacesCell (widths.getD k 0), false)

/-- The per-target write of `EvaluateExpressionCell`: look up the target row
(`IndexError` skips the write), grow it up to the target column, then replace
the target cell's text by `str(result).ljust(len(target_value.text))`.  All
mutations made before an `IndexError` persist, as in the source's `try` block. -/
def writeTarget (widths : List Nat) (rows : List (List CSVValue)) (tr tc : Int)
    (result : String) : List (List CSVValue) :=
  match pyIndex rows.length tr with
  | none => rows
  | some ri =>
    let row := (rows.get? ri).getD []
    let (row1, ok) := growRowCells widths row tc
    if ok then
      match pyIndex row1.length tc with
      | none => rows.set ri row1
      | some ci =>
        let old := (row1.get? ci).getD ⟨"", 0, 0⟩
        rows.set ri (row1.set ci { old with text := String.mk (ljustChars result.data old.text.length) })
    else rows.set ri row1

/-- `range(a, b)` over integers. -/
def intRange (a b : Int) : List Int :=
  (List.range (b - a).toNat).map fun k => a + k

/-- `CSVMatrix.EvaluateExpressionCell`: resolve the target range (against the
row count at call time), apply the direction offset, slice off the matched
prefix to obtain the expression body, grow rows and widths with the `>=`
conditions of the source, then evaluate and write every target cell in
row-major order. -/
def CSVMatrix.EvaluateExpressionCell (m : CSVMatrix) (snapshot : List (List PyNum))
    (row_index column_index : Nat) (value_text : String) (expression_match : ExprMatch) :
    CSVMatrix :=
  let target0 := m.GetRowColumnCoordinateRange expression_match row_index column_index
  let target := m.ApplyDirectionOffsetToRange expression_match target0
  let expression := String.mk (value_text.data.drop expression_match.match_len)
  let rows1 := growRows m.rows target.2.1
  let widths1 := growWidths m.column_widths target.2.2.2
  let final := (intRange target.1 target.2.1).foldl
    (fun rowsAcc tr =>
      (intRange target.2.2.1 target.2.2.2).foldl
        (fun rowsAcc2 tc =>
          writeTarget widths1 rowsAcc2 tr tc
            (evalExpr expression tr tc row_index column_index))
        rowsAcc)
    rows1
  { m with rows := final, column_widths := widths1 }

/-- One position of the `Evaluate` scan: test the cell's text against the
expression grammar and evaluate it on a match. -/
def evalCellStep (m : CSVMatrix) (snapshot : List (List PyNum)) (i j : Nat) : CSVMatrix :=
  let value := CSVMatrix.GetCellValue ((m.rows.get? i).getD []) j
  match pyMatchExpression value.text.data with
  | some em => m.EvaluateExpressionCell snapshot i j value.text em
  | none => m

/-- The live double loop `for row_index, row in enumerate(self.rows): for
column_index, value in enumerate(row)` of `Evaluate`: CPython's list iterator
is index-based, so rows appended — and cells appended to not-yet-passed
rows — during the pass are themselves visited.  `fuel` bounds the number of
loop steps; the result is `some` exactly when the loop ran to completion. -/
def evalScan (snapshot : List (List PyNum)) : Nat → CSVMatrix → Nat → Nat → Option CSVMatrix
  | 0, m, i, _j => if m.rows.length ≤ i then some m else none
  | fuel + 1, m, i, j =>
    if i < m.rows.length then
      if j < ((m.rows.get? i).getD []).length then
        evalScan snapshot fuel (evalCellStep m snapshot i j) i (j + 1)
      else evalScan snapshot fuel m (i + 1) 0
    else some m

/-- `CSVMatrix.Evaluate` (with NumPy available): measure columns, take the
numeric snapshot, then run the live scan. -/
def CSVMatrix.Evaluate (m : CSVMatrix) (fuel : Nat) : Option CSVMatrix :=
  let m1 := m.MeasureColumns
  evalScan (buildSnapshot m1) fuel m1 0 0

/-- Modelled from the spec: an evaluation pass in which only the cells
present at the start of the pass are tested against the expression grammar —
"new rows/cells created this way are not re-scanned for their own expressions
in the same pass" — visiting those initial positions in row-major order
against the evolving grid. -/
def CSVMatrix.EvaluateInitialOnly (m : CSVMatrix) : CSVMatrix :=
  let m1 := m.MeasureColumns
  let snapshot := buildSnapshot m1
  let positions := (List.range m1.rows.length).foldr
    (fun i acc => ((List.range ((m1.rows.get? i).getD []).length).map fun j => (i, j)) ++ acc) []
  positions.foldl (fun acc p => evalCellStep acc snapshot p.1 p.2) m1

example : (CSVMatrix.FromText "a,b\nc").rows.map (List.map CSVValue.text) = [["a", "b"], ["c"]] := by
  decide

/-- C2 (code bug evaluated at the failing input): an empty — or
whitespace-only — source still parses to a grid with `valid = true`:
`"".split("\n")` yields one (empty) line, every line parses to a row of at
least one cell, so `Finalize` always sees at least one row and the
`valid = false` branch demanded by the claim is unreachable from `FromText`. -/
theorem C2_invalid_source_code_eval :
    (CSVMatrix.FromText "").valid = true ∧
    (CSVMatrix.FromText " \t ").valid = true ∧
    (CSVMatrix.FromText "").rows.map (List.map CSVValue.text) = [[""]] := by
  decide

/-- C10: the `column_index` argument of `DeleteTrailingColumns` is shadowed by
the per-row loop variable and never used, so the result is the same for any
two arguments. -/
theorem C10_delete_trailing_arg_ignored :
    ∀ (m : CSVMatrix) (i j : Nat), m.DeleteTrailingColumns i = m.DeleteTrailingColumns j :=
  fun _ _ _ => rfl

/-- C3 is false on the code: in the grid parsed from `"a,b,c"` (one row,
three columns), the coordinate spec `[0:,0:]` — both ranges with missing
bounds — resolves the column range end to `1`, the row count, not to the
column count `3`. -/
theorem C3_column_range_default_counterexample :
    (CSVMatrix.FromText "a,b,c").GetRowColumnCoordinateRange
        ⟨none, none, true, none, none, none, none, true, none, none, none, 0⟩ 0 0 =
      ((0 : Int), (1 : Int), (0 : Int), (1 : Int)) ∧
    (CSVMatrix.FromText "a,b,c").num_columns = 3 ∧ ((1 : Int) ≠ (3 : Int)) := by
  decide

/-- C3 amended: a missing begin bound of a colon range resolves to 0 and a
missing end bound resolves to the grid's current row count in BOTH axes —
`GetCoordinateRange` uses `len(self.rows)` no matter which axis it is called
for, so a column range's missing end also defaults to the row count. -/
theorem C3_column_range_default_amended :
    ∀ (m : CSVMatrix) (bm em cbm cem : Option Char) (bv : Option Nat) (base : Int),
      ((m.GetCoordinateRange bm bv true em none base).2 = (m.rows.length : Int)) ∧
      ((m.GetCoordinateRange bm none true em none base).1 = 0) ∧
      (∀ base_r base_c : Int,
        m.GetRowColumnCoordinateRange
            ⟨bm, none, true, em, none, cbm, none, true, cem, none, none, 0⟩ base_r base_c =
          ((0 : Int), (m.rows.length : Int), (0 : Int), (m.rows.length : Int))) := by
  intro m bm em cbm cem bv base
  refine ⟨?_, ?_, ?_⟩
  · cases bv <;> simp [CSVMatrix.GetCoordinateRange]
  · simp [CSVMatrix.GetCoordinateRange]
  · intro base_r base_c
    simp [CSVMatrix.GetRowColumnCoordinateRange, CSVMatrix.GetCoordinateRange]

/-- C7 is false on the code: in the grid parsed from `" , "`, the single row
consists of two cells whose trimmed texts are empty, yet `DeleteTrailingColumns`
truncates it to one cell, not to zero cells (`last_column_index` starts at 0
and the truncation keeps `row[0:1]`). -/
theorem C7_all_whitespace_row_counterexample :
    ((CSVMatrix.FromText " , ").rows.map (List.map fun v => (pyStrip v.text.data).length) =
      [[0, 0]]) ∧
    ((CSVMatrix.FromText " , ").DeleteTrailingColumns 0).rows.map List.length = [1] := by
  decide

/-- C8 is false on the code: the expression cell `=row+col` at row 2, column 1
does not end the pass with text `"3"`; the written result is left-justified to
the length of the text it replaces (`"=row+col"`, 8 characters), giving
`"3       "`. -/
theorem C8_self_reference_counterexample :
    ((CSVMatrix.FromText "a,b\nc,d\ne,=row+col").Evaluate 100).map
        (fun m => (m.rows.map (List.map CSVValue.text)).getD 2 []) =
      some ["e", "3       "] ∧
    ("3       " : String) ≠ "3" := by
  decide

/-- C8 amended: after one `Evaluate()` pass the cell at row 2, column 1 whose
text was `=row+col` holds `str(2+1) = "3"` right-padded with spaces to the
length 8 of the replaced text, the target range defaulting to the authoring
cell itself; the `>=` growth conditions also append one empty row (and one
zero column width) beyond the target range. -/
theorem C8_self_reference_amended :
    ((CSVMatrix.FromText "a,b\nc,d\ne,=row+col").Evaluate 100).map
        (fun m => m.rows.map (List.map CSVValue.text)) =
      some [["a", "b"], ["c", "d"], ["e", "3       "], []] := by
  decide

/-- C9 is false on the code: the live scan of `Evaluate` follows CPython's
index-based list iteration, so a cell created by mid-pass growth at a position
the scan has not yet passed IS tested against the expression grammar in the
same pass.  Here the cell `[1,0]='[0,1]=7'` writes the text `[0,1]=7` into the
newly created cell at (1, 0); the live pass then evaluates that created cell,
writing `"7"` into (0, 1) — while the spec-modelled pass that tests only the
cells present at the start leaves row 0 with a single cell. -/
theorem C9_no_rescan_counterexample :
    ((CSVMatrix.FromText "\"[1,0]=\x27[0,1]=7\x27\"").Evaluate 100).map
        (fun m => m.rows.map (List.map CSVValue.text)) =
      some [["[1,0]=\x27[0,1]=7\x27", "7"], ["[0,1]=7          "], []] ∧
    (CSVMatrix.FromText "\"[1,0]=\x27[0,1]=7\x27\"").EvaluateInitialOnly.rows.map
        (List.map CSVValue.text) =
      [["[1,0]=\x27[0,1]=7\x27"], ["[0,1]=7          "], []] ∧
    ([["[1,0]=\x27[0,1]=7\x27", "7"], ["[0,1]=7          "], ([] : List String)] ≠
      [["[1,0]=\x27[0,1]=7\x27"], ["[0,1]=7          "], []]) := by
  decide

/-- C9 amended: cells present at the start of the pass are tested exactly once
each, in row-major order, and positions already passed are never revisited;
but rows appended and cells created by mid-pass growth at positions the scan
has not yet reached ARE tested in the same pass — here the cell created at
(1, 0) is itself evaluated, which is what writes `"7"` into (0, 1). -/
theorem C9_no_rescan_amended :
    ((CSVMatrix.FromText "\"[1,0]=\x27[0,1]=7\x27\"").Evaluate 100).map
        (fun m => m.rows.map (List.map CSVValue.text)) =
      some [["[1,0]=\x27[0,1]=7\x27", "7"], ["[0,1]=7          "], []] := by
  decide

/-- Characterization of the `last_column_index` loop: either no cell satisfies
`p` and the accumulator is returned, or the result is the offset of the
largest index whose cell satisfies `p`. -/
theorem lastIdxAux_spec (p : CSVValue → Bool) :
    ∀ (l : List CSVValue) (ci acc : Nat),
      (lastIdxAux p l ci acc = acc ∧ ∀ v ∈ l, p v = false) ∨
      (∃ k, ∃ hk : k < l.length, p (l.get ⟨k, hk⟩) = true ∧
        lastIdxAux p l ci acc = ci + k ∧
        ∀ k', (hk' : k' < l.length) → k < k' → p (l.get ⟨k', hk'⟩) = false) := by
  intro l
  induction l with
  | nil => intro ci acc; exact Or.inl ⟨rfl, by simp⟩
  | cons v vs ih =>
    intro ci acc
    rcases ih (ci + 1) (if p v then ci else acc) with ⟨heq, hall⟩ | ⟨k, hk, hpk, heq, hmax⟩
    · by_cases hp : p v = true
      · have heq' : lastIdxAux p vs (ci + 1) ci = ci := by simpa [hp] using heq
        refine Or.inr ⟨0, by simp, by simpa using hp, ?_, ?_⟩
        · simp [lastIdxAux, hp, heq']
        · intro k' hk' hk0
          match k', hk0 with
          | j + 1, _ => exact hall _ (List.get_mem vs j (by simpa using hk'))
      · refine Or.inl ⟨?_, ?_⟩
        · simp only [lastIdxAux, heq]
          simp [hp]
        · intro w hw
          rcases List.mem_cons.mp hw with rfl | hw
          · simpa using hp
          · exact hall _ hw
    · refine Or.inr ⟨k + 1, by simpa using hk, by simpa using hpk, ?_, ?_⟩
      · simp only [lastIdxAux, heq]; omega
      · intro k' hk' hkk
        match k', hkk with
        | j + 1, _ => exact hmax j (by simpa using hk') (by omega)

/-- C7 amended: each row is truncated to one past the highest column index
whose trimmed text is non-empty; a non-empty row all of whose cells have
whitespace-only text is truncated to exactly its first cell rather than to
zero cells, and an already empty row stays empty. -/
theorem C7_delete_trailing_amended (m : CSVMatrix) (column_index : Nat) :
    ((m.DeleteTrailingColumns column_index).rows =
      m.rows.map fun row => row.take (lastIdxAux stripNonempty row 0 0 + 1)) ∧
    ∀ row ∈ m.rows,
      ((∀ v ∈ row, stripNonempty v = false) →
        row.take (lastIdxAux stripNonempty row 0 0 + 1) = row.take 1) ∧
      ((∃ j, ∃ hj : j < row.length, stripNonempty (row.get ⟨j, hj⟩) = true) →
        ∃ hlast : lastIdxAux stripNonempty row 0 0 < row.length,
          stripNonempty (row.get ⟨lastIdxAux stripNonempty row 0 0, hlast⟩) = true ∧
          ∀ j, (hj : j < row.length) → lastIdxAux stripNonempty row 0 0 < j →
            stripNonempty (row.get ⟨j, hj⟩) = false) := by
  refine ⟨rfl, ?_⟩
  intro row _hrow
  rcases lastIdxAux_spec stripNonempty row 0 0 with ⟨heq, hall⟩ | ⟨k, hk, hpk, heq, hmax⟩
  · constructor
    · intro _; rw [heq]
    · rintro ⟨j, hj, hpj⟩
      exact absurd (hall _ (List.get_mem row j hj))
        (by simp only [List.get_eq_getElem] at hpj; simp [hpj])
  · constructor
    · intro hall
      exact absurd (hall _ (List.get_mem row k hk))
        (by simp only [List.get_eq_getElem] at hpk; simp [hpk])
    · intro _
      have hk0 : lastIdxAux stripNonempty row 0 0 = k := by omega
      refine ⟨by omega, ?_, ?_⟩
      · simpa [hk0] using hpk
      · intro j hj hlt
        exact hmax j hj (by omega)

/-- C7 amended, applied at the all-whitespace row of the grid parsed from
`" , "`: that row is truncated to its first cell. -/
theorem C7_delete_trailing_amended_witness :
    (([⟨" ", 0, 1⟩, ⟨" ", 2, 3⟩] : List CSVValue) ∈ (CSVMatrix.FromText " , ").rows) ∧
    ([⟨" ", 0, 1⟩, ⟨" ", 2, 3⟩] : List CSVValue).take
        (lastIdxAux stripNonempty [⟨" ", 0, 1⟩, ⟨" ", 2, 3⟩] 0 0 + 1) =
      ([⟨" ", 0, 1⟩, ⟨" ", 2, 3⟩] : List CSVValue).take 1 :=
  ⟨by decide,
    (((C7_delete_trailing_amended (CSVMatrix.FromText " , ") 0).2 _ (by decide)).1 (by decide))⟩

theorem getD_set_self_nat (l : List Nat) (i x : Nat) (h : i < l.length) :
    (l.set i x).getD i 0 = x := by
  induction l generalizing i with
  | nil => simp at h
  | cons a t ih =>
    cases i with
    | zero => simp
    | succ j => simpa using ih j (by simpa using h)

theorem getD_set_ge_nat (l : List Nat) (i j x : Nat) (h : l.getD i 0 ≤ x) :
    l.getD j 0 ≤ (l.set i x).getD j 0 := by
  induction l generalizing i j with
  | nil => simp
  | cons a t ih =>
    cases i with
    | zero =>
      cases j with
      | zero => simpa using h
      | succ j' => simp
    | succ i' =>
      cases j with
      | zero => simp
      | succ j' => simpa using ih i' j' (by simpa using h)

theorem length_measureCell (w : List Nat) (i x : Nat) :
    (measureCell w i x).length = w.length := by
  unfold measureCell; split <;> simp

theorem getD_measureCell_mono (w : List Nat) (i x j : Nat) :
    w.getD j 0 ≤ (measureCell w i x).getD j 0 := by
  unfold measureCell; split
  · exact getD_set_ge_nat w i j x (le_of_lt (by assumption))
  · exact le_refl _

theorem le_getD_measureCell (w : List Nat) (i x : Nat) (h : i < w.length) :
    x ≤ (measureCell w i x).getD i 0 := by
  unfold measureCell; split
  · exact le_of_eq (getD_set_self_nat w i x h).symm
  · omega

theorem length_measureRowAux (d : Char) (row : List CSVValue) :
    ∀ (ci : Nat) (w : List Nat), (measureRowAux d row ci w).length = w.length := by
  induction row with
  | nil => intro ci w; rfl
  | cons v vs ih =>
    intro ci w
    simp [measureRowAux, ih, length_measureCell]

theorem getD_measureRowAux_mono (d : Char) (row : List CSVValue) :
    ∀ (ci : Nat) (w : List Nat) (j : Nat),
      w.getD j 0 ≤ (measureRowAux d row ci w).getD j 0 := by
  induction row with
  | nil => intro ci w j; exact le_refl _
  | cons v vs ih =>
    intro ci w j
    exact le_trans (getD_measureCell_mono w ci _ j) (ih (ci + 1) _ j)

theorem le_getD_measureRowAux (d : Char) (row : List CSVValue) :
    ∀ (ci : Nat) (w : List Nat) (k : Nat) (hk : k < row.length),
      ci + k < w.length →
      (quoteChars d (row.get ⟨k, hk⟩).text.data).length ≤
        (measureRowAux d row ci w).getD (ci + k) 0 := by
  induction row with
  | nil => intro ci w k hk; simp at hk
  | cons v vs ih =>
    intro ci w k hk hlen
    cases k with
    | zero =>
      refine le_trans (le_getD_measureCell w ci _ (by simpa using hlen)) ?_
      simpa using getD_measureRowAux_mono d vs (ci + 1) _ ci
    | succ k' =>
      have h2 := ih (ci + 1) (measureCell w ci (quoteChars d v.text.data).length) k'
        (by simpa using hk) (by rw [length_measureCell]; omega)
      rw [show ci + (k' + 1) = ci + 1 + k' from by omega]
      simpa [measureRowAux] using h2

theorem length_foldl_measure (d : Char) (rows : List (List CSVValue)) :
    ∀ w : List Nat,
      (rows.foldl (fun widths row => measureRowAux d row 0 widths) w).length = w.length := by
  induction rows with
  | nil => intro w; rfl
  | cons r rs ih => intro w; simp [ih, length_measureRowAux]

theorem getD_foldl_measure_mono (d : Char) (rows : List (List CSVValue)) :
    ∀ (w : List Nat) (j : Nat),
      w.getD j 0 ≤ (rows.foldl (fun widths row => measureRowAux d row 0 widths) w).getD j 0 := by
  induction rows with
  | nil => intro w j; exact le_refl _
  | cons r rs ih =>
    intro w j
    exact le_trans (getD_measureRowAux_mono d r 0 w j) (ih _ j)

theorem le_getD_foldl_measure (d : Char) (rows : List (List CSVValue)) :
    ∀ (w : List Nat) (row : List CSVValue), row ∈ rows →
      ∀ (k : Nat) (hk : k < row.length), k < w.length →
      (quoteChars d (row.get ⟨k, hk⟩).text.data).length ≤
        (rows.foldl (fun widths row => measureRowAux d row 0 widths) w).getD k 0 := by
  induction rows with
  | nil => intro w row hrow; simp at hrow
  | cons r rs ih =>
    intro w row hrow k hk hw
    rcases List.mem_cons.mp hrow with rfl | hrow
    · refine le_trans ?_ (getD_foldl_measure_mono d rs _ k)
      simpa using le_getD_measureRowAux d row 0 w k hk (by simpa using hw)
    · exact ih _ row hrow k hk (by simpa [length_measureRowAux] using hw)

/-- After `MeasureColumns`, each column width bounds the quoted width of every
cell of that column (for grids whose rows fit within `num_columns`). -/
theorem measureColumns_bound (m : CSVMatrix)
    (hcols : ∀ r ∈ m.rows, r.length ≤ m.num_columns)
    (row : List CSVValue) (hrow : row ∈ m.rows) (k : Nat) (hk : k < row.length) :
    (quoteChars m.delimiter (row.get ⟨k, hk⟩).text.data).length ≤
      m.MeasureColumns.column_widths.getD k 0 := by
  have hw : k < (List.replicate m.num_columns 0).length := by
    simp only [List.length_replicate]
    exact lt_of_lt_of_le hk (hcols row hrow)
  exact le_getD_foldl_measure m.delimiter m.rows _ row hrow k hk hw

theorem length_ljustChars (s : List Char) (w : Nat) :
    (ljustChars s w).length = max s.length w := by
  simp [ljustChars]; omega

theorem length_expandRowAux (d : Char) (widths : List Nat) :
    ∀ (row : List CSVValue) (ci : Nat), row ≠ [] →
      (∀ (k : Nat) (hk : k < row.length),
        (quoteChars d (row.get ⟨k, hk⟩).text.data).length ≤ widths.getD (ci + k) 0) →
      (expandRowAux d widths row ci).length =
        ((List.range row.length).map fun k => widths.getD (ci + k) 0).sum + (row.length - 1) := by
  intro row
  induction row with
  | nil => intro ci h; exact absurd rfl h
  | cons v vs ih =>
    intro ci _ hb
    cases vs with
    | nil =>
      have h0 : (quoteChars d v.text.data).length ≤ widths.getD ci 0 := by
        simpa using hb 0 (by simp)
      have hsum : ((List.range ([v] : List CSVValue).length).map
          fun k => widths.getD (ci + k) 0).sum = widths.getD ci 0 := by
        simp [List.range_succ]
      simp only [expandRowAux, length_ljustChars, hsum]
      rw [Nat.max_eq_right h0]
      simp
    | cons v' vs' =>
      have hrec := ih (ci + 1) (by simp) (fun k hk => by
        have h1 := hb (k + 1) (by simpa using hk)
        rw [show ci + 1 + k = ci + (k + 1) from by omega]
        simpa using h1)
      have h0 : (quoteChars d v.text.data).length ≤ widths.getD ci 0 := by
        simpa using hb 0 (by simp)
      have hsum : ((List.range (v :: v' :: vs').length).map fun k => widths.getD (ci + k) 0).sum
          = widths.getD ci 0 +
            ((List.range (v' :: vs').length).map fun k => widths.getD (ci + 1 + k) 0).sum := by
        rw [show (v :: v' :: vs').length = (v' :: vs').length + 1 from rfl,
          List.range_succ_eq_map]
        simp only [List.map_cons, List.sum_cons, List.map_map, Nat.add_zero]
        congr 1
        refine congrArg List.sum (List.map_congr_left ?_)
        intro a _
        simp only [Function.comp]
        rw [show ci + (a + 1) = ci + 1 + a from by omega]
      simp only [List.length_cons] at hrec hsum
      simp only [expandRowAux, List.length_append, List.length_cons, length_ljustChars,
        Nat.add_zero, hrec]
      rw [Nat.max_eq_right h0]
      omega

/-- C6 amended: expanded rendering pads every quoted cell — the last of each
row included — up to its column's measured width, so each rendered row's
length is the sum of its columns' measured widths plus one delimiter between
adjacent cells (and lines can end in trailing spaces). -/
theorem C6_expanded_padding_amended (m : CSVMatrix) (row : List CSVValue)
    (hcols : ∀ r ∈ m.rows, r.length ≤ m.num_columns) (hrow : row ∈ m.rows) (hne : row ≠ []) :
    ((expandRowAux m.delimiter m.MeasureColumns.column_widths row 0).length =
      ((List.range row.length).map fun k => m.MeasureColumns.column_widths.getD k 0).sum +
        (row.length - 1)) ∧
    m.FormatExpanded.data =
      joinSep '\n'
        (m.rows.map fun r => expandRowAux m.delimiter m.MeasureColumns.column_widths r 0) := by
  constructor
  · have := length_expandRowAux m.delimiter m.MeasureColumns.column_widths row 0 hne
      (fun k hk => by simpa using measureColumns_bound m hcols row hrow k hk)
    simpa using this
  · rfl

/-- C6 amended, applied at the grid parsed from `"a\nabc"`: the first row
(the single cell `"a"`, column width 3) renders to 3 characters — the cell
padded to the full measured width even though it is the last of its row. -/
theorem C6_expanded_padding_amended_witness :
    (([⟨"a", 0, 1⟩] : List CSVValue) ∈ (CSVMatrix.FromText "a\nabc").rows) ∧
    (((expandRowAux (CSVMatrix.FromText "a\nabc").delimiter
          (CSVMatrix.FromText "a\nabc").MeasureColumns.column_widths [⟨"a", 0, 1⟩] 0).length =
        ((List.range ([⟨"a", 0, 1⟩] : List CSVValue).length).map
            fun k => (CSVMatrix.FromText "a\nabc").MeasureColumns.column_widths.getD k 0).sum +
          (([⟨"a", 0, 1⟩] : List CSVValue).length - 1)) ∧
      (CSVMatrix.FromText "a\nabc").FormatExpanded.data =
        joinSep '\n'
          ((CSVMatrix.FromText "a\nabc").rows.map fun r =>
            expandRowAux (CSVMatrix.FromText "a\nabc").delimiter
              (CSVMatrix.FromText "a\nabc").MeasureColumns.column_widths r 0)) :=
  ⟨by decide,
    C6_expanded_padding_amended (CSVMatrix.FromText "a\nabc") [⟨"a", 0, 1⟩]
      (by decide) (by decide) (by decide)⟩

/-- Python's string comparison returns 0 exactly on equal strings. -/
theorem pyStrCmpChars_eq_zero_iff : ∀ x y : List Char, pyStrCmpChars x y = 0 ↔ x = y
  | [], [] => by simp [pyStrCmpChars]
  | [], _ :: _ => by simp [pyStrCmpChars]
  | _ :: _, [] => by simp [pyStrCmpChars]
  | a :: as, b :: bs => by
    simp only [pyStrCmpChars]
    by_cases h1 : a < b
    · rw [if_pos h1]
      constructor
      · intro h; exact absurd h (by decide)
      · intro h
        injection h with hab _
        exact absurd hab (ne_of_lt h1)
    · rw [if_neg h1]
      by_cases h2 : b < a
      · rw [if_pos h2]
        constructor
        · intro h; exact absurd h (by decide)
        · intro h
          injection h with hab _
          exact absurd hab.symm (ne_of_lt h2)
      · have hab : a = b := le_antisymm (not_lt.mp h2) (not_lt.mp h1)
        rw [if_neg h2, pyStrCmpChars_eq_zero_iff as bs]
        subst hab
        simp

theorem pyExpTail_den_pos (mnum : Int) (mden : Nat) (r : List Char) (p : PyNum)
    (hm : 0 < mden) (h : pyExpTail mnum mden r = some p) : 0 < p.2 := by
  simp only [pyExpTail] at h
  split at h
  · exact absurd h (by simp)
  · split at h
    · cases h; simpa using hm
    · cases h
      exact Nat.mul_pos hm (pow_pos (by norm_num) _)

theorem pyFloat?_den_pos (s : List Char) (p : PyNum) (h : pyFloat? s = some p) : 0 < p.2 := by
  simp only [pyFloat?] at h
  split at h
  · exact absurd h (by simp)
  · split at h
    · cases h
      exact pow_pos (by norm_num) _
    · exact pyExpTail_den_pos _ _ _ _ (pow_pos (by norm_num) _) h
    · exact pyExpTail_den_pos _ _ _ _ (pow_pos (by norm_num) _) h
    · exact absurd h (by simp)

theorem asFloat_den_pos (v : CSVValue) (p : PyNum) (h : v.AsFloat = some p) : 0 < p.2 :=
  pyFloat?_den_pos v.text.data p h

/-- Equality classes of `Compare` are genuine: two values that both compare
equal to `k` compare equal to each other (numeric equality when `k` parses —
then both must parse, since the string branch would force equal texts and
hence equal parses — and textual equality otherwise). -/
theorem compare_num_eq_trans (a b k : CSVValue)
    (ha : (a.Compare k).1 = 0) (hb : (b.Compare k).1 = 0) : (a.Compare b).1 = 0 := by
  rcases hak : a.AsFloat with _ | x <;> rcases hbk : b.AsFloat with _ | y <;>
    rcases hkk : k.AsFloat with _ | z <;>
    simp only [CSVValue.Compare, hak, hbk, hkk] at ha hb ⊢
  · -- a none, b none, k none: both string-equal to k
    have ha' : a.text.data = k.text.data := (pyStrCmpChars_eq_zero_iff _ _).mp ha
    have hb' : b.text.data = k.text.data := (pyStrCmpChars_eq_zero_iff _ _).mp hb
    rw [(pyStrCmpChars_eq_zero_iff _ _).mpr (ha'.trans hb'.symm)]
  · -- a none, b none, k some: string branch forces a.text = k.text, contradiction
    have ha' : a.text.data = k.text.data := (pyStrCmpChars_eq_zero_iff _ _).mp ha
    have : a.AsFloat = k.AsFloat := by simp [CSVValue.AsFloat, ha']
    rw [hak, hkk] at this
    exact absurd this (by simp)
  · -- a none, b some, k none
    have hb' : b.text.data = k.text.data := (pyStrCmpChars_eq_zero_iff _ _).mp hb
    have : b.AsFloat = k.AsFloat := by simp [CSVValue.AsFloat, hb']
    rw [hbk, hkk] at this
    exact absurd this (by simp)
  · -- a none, b some, k some
    have ha' : a.text.data = k.text.data := (pyStrCmpChars_eq_zero_iff _ _).mp ha
    have : a.AsFloat = k.AsFloat := by simp [CSVValue.AsFloat, ha']
    rw [hak, hkk] at this
    exact absurd this (by simp)
  · -- a some, b none, k none
    have ha' : a.text.data = k.text.data := (pyStrCmpChars_eq_zero_iff _ _).mp ha
    have : a.AsFloat = k.AsFloat := by simp [CSVValue.AsFloat, ha']
    rw [hak, hkk] at this
    exact absurd this (by simp)
  · -- a some, b none, k some
    have hb' : b.text.data = k.text.data := (pyStrCmpChars_eq_zero_iff _ _).mp hb
    have : b.AsFloat = k.AsFloat := by simp [CSVValue.AsFloat, hb']
    rw [hbk, hkk] at this
    exact absurd this (by simp)
  · -- a some, b some, k none
    have ha' : a.text.data = k.text.data := (pyStrCmpChars_eq_zero_iff _ _).mp ha
    have : a.AsFloat = k.AsFloat := by simp [CSVValue.AsFloat, ha']
    rw [hak, hkk] at this
    exact absurd this (by simp)
  · -- a some x, b some y, k some z: numeric transitivity by cross-multiplication
    have hz : (0 : Int) < (z.2 : Int) := by
      exact_mod_cast asFloat_den_pos k z hkk
    have h1 : x.1 * (z.2 : Int) = z.1 * x.2 := by omega
    have h2 : y.1 * (z.2 : Int) = z.1 * y.2 := by omega
    have key : (x.1 * (y.2 : Int)) * (z.2 : Int) = (y.1 * (x.2 : Int)) * (z.2 : Int) := by
      calc (x.1 * (y.2 : Int)) * (z.2 : Int) = (x.1 * z.2) * y.2 := by ring
        _ = (z.1 * x.2) * y.2 := by rw [h1]
        _ = (z.1 * y.2) * x.2 := by ring
        _ = (y.1 * z.2) * x.2 := by rw [← h2]
        _ = (y.1 * (x.2 : Int)) * z.2 := by ring
    have := mul_right_cancel₀ (ne_of_gt hz) key
    omega

/-- C4 (code bug evaluated at the failing input): `SortByColumn` is NOT
stable on the program, because the non-transitive comparator breaks the
precondition of Python's stability guarantee.  In the grid parsed from
`"1.0\n1!\n1"`, the adjacent lexical comparisons `"1!" < "1.0"` and
`"1" < "1!"` make the three rows one strictly-descending initial run, which
the sort reverses wholesale to `["1", "1!", "1.0"]` — swapping the rows keyed
`"1.0"` and `"1"`, which compare equal (`Compare` numerator 0: both parse to
the value 1).  The claim (and the spec's "ties must retain original relative
order") demands they keep their input order `"1.0"` before `"1"`. -/
theorem C4_sort_stable_code_eval :
    ((CSVMatrix.FromText "1.0\n1!\n1").rows.map (List.map CSVValue.text) =
      [["1.0"], ["1!"], ["1"]]) ∧
    (((CSVValue.mk "1.0" 0 0).Compare ⟨"1", 0, 0⟩).1 = 0) ∧
    (((CSVMatrix.FromText "1.0\n1!\n1").SortByColumn 0 SortDirection.Ascending false).rows.map
        (List.map CSVValue.text) = [["1"], ["1!"], ["1.0"]]) := by
  decide

example :
    ((CSVMatrix.FromText "2\n10\n9").SortByColumn 0 SortDirection.Ascending false).rows.map
      (List.map CSVValue.text) = [["2"], ["9"], ["10"]] := by
  decide

example :
    ((CSVMatrix.FromText "1.0\n1\n0").SortByColumn 0 SortDirection.Ascending false).rows.map
      (List.map CSVValue.text) = [["0"], ["1.0"], ["1"]] := by
  decide

/-- C5: when both cell texts parse as floats, `Compare` is their difference —
its sign is the sign of `a_value - b_value` (so `"9" < "10"` numerically);
when at least one does not parse, `Compare` is the code-point–lexicographic
string comparison (so `"9" < "apple"`). -/
theorem C5_compare_polymorphic :
    (∀ (a b : CSVValue) (x y : PyNum), a.AsFloat = some x → b.AsFloat = some y →
      ((a.Compare b).toRat = x.toRat - y.toRat ∧
        (((a.Compare b).1 < 0) ↔ x.toRat < y.toRat) ∧
        (((a.Compare b).1 = 0) ↔ x.toRat = y.toRat) ∧
        ((0 < (a.Compare b).1) ↔ y.toRat < x.toRat))) ∧
    (∀ a b : CSVValue, a.AsFloat = none ∨ b.AsFloat = none →
      a.Compare b = (pyStrCmpChars a.text.data b.text.data, 1)) ∧
    ((⟨"9", 0, 0⟩ : CSVValue).lt ⟨"10", 0, 0⟩ = true) ∧
    ((⟨"9", 0, 0⟩ : CSVValue).lt ⟨"apple", 0, 0⟩ = true) ∧
    (pyFloat? "apple".data = none) ∧
    (pyStrCmpChars "9".data "apple".data = -1) := by
  refine ⟨?_, ?_, by decide, by decide, by decide, by decide⟩
  · intro a b x y hx hy
    have hx2 : (0 : ℚ) < (x.2 : ℚ) := by exact_mod_cast asFloat_den_pos a x hx
    have hy2 : (0 : ℚ) < (y.2 : ℚ) := by exact_mod_cast asFloat_den_pos b y hy
    have hcmp : a.Compare b = (x.1 * y.2 - y.1 * x.2, x.2 * y.2) := by
      simp [CSVValue.Compare, hx, hy]
    refine ⟨?_, ?_, ?_, ?_⟩
    · rw [hcmp]
      simp only [PyNum.toRat]
      push_cast
      field_simp
      ring
    · rw [hcmp]
      simp only [PyNum.toRat]
      rw [div_lt_div_iff₀ hx2 hy2]
      constructor
      · intro h
        exact_mod_cast (by omega : x.1 * (y.2 : Int) < y.1 * x.2)
      · intro h
        have : x.1 * (y.2 : Int) < y.1 * x.2 := by exact_mod_cast h
        omega
    · rw [hcmp]
      simp only [PyNum.toRat]
      rw [div_eq_div_iff (ne_of_gt hx2) (ne_of_gt hy2)]
      constructor
      · intro h
        exact_mod_cast (by omega : x.1 * (y.2 : Int) = y.1 * x.2)
      · intro h
        have : x.1 * (y.2 : Int) = y.1 * x.2 := by exact_mod_cast h
        omega
    · rw [hcmp]
      simp only [PyNum.toRat]
      rw [div_lt_div_iff₀ hy2 hx2]
      constructor
      · intro h
        exact_mod_cast (by omega : y.1 * (x.2 : Int) < x.1 * y.2)
      · intro h
        have : y.1 * (x.2 : Int) < x.1 * y.2 := by exact_mod_cast h
        omega
  · intro a b hor
    rcases hor with hnone | hnone <;>
      rcases ha : a.AsFloat with _ | x <;> rcases hb : b.AsFloat with _ | y <;>
      simp only [CSVValue.Compare, ha, hb] <;>
      first
        | rfl
        | (rw [ha] at hnone; exact absurd hnone (by simp))
        | (rw [hb] at hnone; exact absurd hnone (by simp))

/-- C5 applied at the concrete pair `"9"`, `"10"`: both parse, and the
comparison is numerically negative exactly because `9 < 10` as rationals. -/
theorem C5_compare_polymorphic_witness :
    ((⟨"9", 0, 0⟩ : CSVValue).AsFloat = some (9, 1)) ∧
    ((⟨"10", 0, 0⟩ : CSVValue).AsFloat = some (10, 1)) ∧
    ((((⟨"9", 0, 0⟩ : CSVValue).Compare ⟨"10", 0, 0⟩).1 < 0) ↔
      PyNum.toRat (9, 1) < PyNum.toRat (10, 1)) :=
  ⟨by decide, by decide,
    (C5_compare_polymorphic.1 ⟨"9", 0, 0⟩ ⟨"10", 0, 0⟩ (9, 1) (10, 1)
      (by decide) (by decide)).2.1⟩

/-- C6 is false on the code: `FormatExpanded` pads the last cell of a row like
any other cell, so the grid parsed from `"a\nabc"` renders as `"a  \nabc"`,
whose first line ends in trailing spaces. -/
theorem C6_last_cell_padding_counterexample :
    (CSVMatrix.FromText "a\nabc").FormatExpanded = "a  \nabc" ∧
    (pySplit '\n' (CSVMatrix.FromText "a\nabc").FormatExpanded.data).map
        (fun l => l.getLast? == some ' ') =
      [true, false] := by
  decide

example : (CSVMatrix.FromText "\"a,b\"\"c\"").rows.map (List.map CSVValue.text) = [["a,b\"c"]] := by
  decide

example : (CSVMatrix.FromText "").valid = true := by decide

example :
    ((CSVMatrix.FromText "a,b\nc,d\ne,=row+col").Evaluate 100).map
      (fun m => m.rows.map (List.map CSVValue.text)) =
    some [["a", "b"], ["c", "d"], ["e", "3       "], []] := by decide

example :
    ((CSVMatrix.FromText "\"[1,0]=\x27[0,1]=7\x27\"").Evaluate 100).map
      (fun m => m.rows.map (List.map CSVValue.text)) =
    some [["[1,0]=\x27[0,1]=7\x27", "7"], ["[0,1]=7          "], []] := by decide

example :
    (CSVMatrix.FromText "\"[1,0]=\x27[0,1]=7\x27\"").EvaluateInitialOnly.rows.map
      (List.map CSVValue.text) =
    [["[1,0]=\x27[0,1]=7\x27"], ["[0,1]=7          "], []] := by decide

example : pyFloat? "9".data = some (9, 1) := by decide

example : pyFloat? "-1.5e2".data = some (-1500, 10) := by decide

example : pyFloat? " .25 ".data = some (25, 100) := by decide

example : pyFloat? "apple".data = none := by decide

example : (CSVValue.mk "9" 0 0).lt ⟨"10", 0, 0⟩ = true := by decide

example : (CSVValue.mk "9" 0 0).lt ⟨"apple", 0, 0⟩ = true := by decide

example : (CSVValue.mk "10" 0 0).lt ⟨"apple", 0, 0⟩ = true := by decide

theorem parse_cons_step (delim c : Char) (l : List Char) (s : ScanState)
    (h : ¬(c = '"' ∧ l.head? = some '"')) :
    parseRowAux delim (c :: l) s = parseRowAux delim l (scanChar delim c s) := by
  cases l with
  | nil => simp [parseRowAux]
  | cons c2 rest =>
    have hcond : ¬(c = '"' ∧ c2 = '"') := by simpa using h
    simp [parseRowAux, hcond]

theorem parse_pair_step (delim : Char) (rest : List Char) (s : ScanState) :
    parseRowAux delim ('"' :: '"' :: rest) s = parseRowAux delim rest (scanPair s) := by
  simp [parseRowAux]

theorem parse_pair_run (delim : Char) :
    ∀ (k : Nat) (ys : List Char) (i f : Nat) (w : List Char) (q : Bool)
      (cols : List CSVValue),
      parseRowAux delim (List.replicate (2 * k) '"' ++ ys) ⟨i, f, w, q, cols⟩ =
        parseRowAux delim ys ⟨i + 2 * k, f, w ++ List.replicate k '"', q, cols⟩ := by
  intro k
  induction k with
  | zero => intro ys i f w q cols; simp
  | succ k ih =>
    intro ys i f w q cols
    rw [show 2 * (k + 1) = 2 * k + 1 + 1 from by omega]
    rw [List.replicate_succ, List.replicate_succ, List.cons_append, List.cons_append,
      parse_pair_step]
    rw [show scanPair ⟨i, f, w, q, cols⟩ = ⟨i + 2, f, w ++ ['"'], q, cols⟩ from rfl]
    rw [ih]
    have hst : (⟨i + 2 + 2 * k, f, (w ++ ['"']) ++ List.replicate k '"', q, cols⟩ : ScanState) =
        ⟨i + (2 * k + 1 + 1), f, w ++ List.replicate (k + 1) '"', q, cols⟩ := by
      rw [List.append_assoc, List.singleton_append, ← List.replicate_succ]
      simp only [ScanState.mk.injEq, and_true, true_and]
      omega
    rw [hst]

theorem parse_open_run (delim : Char) (k : Nat) (c : Char) (hc : c ≠ '"') (xs : List Char)
    (i f : Nat) (w : List Char) (cols : List CSVValue) :
    parseRowAux delim (List.replicate (2 * k + 1) '"' ++ c :: xs) ⟨i, f, w, false, cols⟩ =
      parseRowAux delim (c :: xs) ⟨i + 2 * k + 1, f, w ++ List.replicate k '"', true, cols⟩ := by
  rw [List.replicate_succ', List.append_assoc, parse_pair_run, List.singleton_append]
  rw [parse_cons_step delim '"' (c :: xs) _ (by simp [hc])]
  rw [show scanChar delim '"' ⟨i + 2 * k, f, w ++ List.replicate k '"', false, cols⟩ =
      ⟨i + 2 * k + 1, f, w ++ List.replicate k '"', true, cols⟩ from by simp [scanChar]]

theorem parse_inside (delim : Char) :
    ∀ (t xs : List Char), xs.head? ≠ some '"' →
      ∀ (i f : Nat) (w : List Char) (cols : List CSVValue),
      parseRowAux delim (dupQ t ++ '"' :: xs) ⟨i, f, w, true, cols⟩ =
        parseRowAux delim xs ⟨i + (dupQ t).length + 1, f, w ++ t, false, cols⟩ := by
  intro t
  induction t with
  | nil =>
    intro xs hx i f w cols
    rw [show dupQ [] = [] from rfl, List.nil_append]
    rw [parse_cons_step delim '"' xs _ (by simp [hx])]
    rw [show scanChar delim '"' ⟨i, f, w, true, cols⟩ = ⟨i + 1, f, w, false, cols⟩ from by
      simp [scanChar]]
    simp
  | cons c t' ih =>
    intro xs hx i f w cols
    by_cases hc : c = '"'
    · subst hc
      rw [show dupQ ('"' :: t') = '"' :: '"' :: dupQ t' from by simp [dupQ]]
      rw [List.cons_append, List.cons_append, parse_pair_step]
      rw [show scanPair ⟨i, f, w, true, cols⟩ = ⟨i + 2, f, w ++ ['"'], true, cols⟩ from rfl]
      rw [ih xs hx]
      have hst : (⟨i + 2 + (dupQ t').length + 1, f, (w ++ ['"']) ++ t', false, cols⟩ :
          ScanState) =
          ⟨i + ('"' :: '"' :: dupQ t').length + 1, f, w ++ '"' :: t', false, cols⟩ := by
        rw [List.append_assoc, List.singleton_append]
        simp only [ScanState.mk.injEq, and_true, true_and, List.length_cons]
        omega
      rw [hst]
    · rw [show dupQ (c :: t') = c :: dupQ t' from by simp [dupQ, hc]]
      rw [List.cons_append, parse_cons_step delim c _ _ (by simp [hc])]
      rw [show scanChar delim c ⟨i, f, w, true, cols⟩ = ⟨i + 1, f, w ++ [c], true, cols⟩ from by
        simp [scanChar, hc]]
      rw [ih xs hx]
      have hst : (⟨i + 1 + (dupQ t').length + 1, f, (w ++ [c]) ++ t', false, cols⟩ :
          ScanState) =
          ⟨i + (c :: dupQ t').length + 1, f, w ++ c :: t', false, cols⟩ := by
        rw [List.append_assoc, List.singleton_append]
        simp only [ScanState.mk.injEq, and_true, true_and, List.length_cons]
        omega
      rw [hst]

theorem dupQ_append : ∀ u v : List Char, dupQ (u ++ v) = dupQ u ++ dupQ v := by
  intro u v
  induction u with
  | nil => rfl
  | cons c u' ih =>
    by_cases hc : c = '"' <;> simp [dupQ, hc, ih]

theorem dupQ_replicate_quote : ∀ j : Nat, dupQ (List.replicate j '"') = List.replicate (2 * j) '"' := by
  intro j
  induction j with
  | zero => rfl
  | succ j ih =>
    rw [List.replicate_succ, show dupQ ('"' :: List.replicate j '"') =
      '"' :: '"' :: dupQ (List.replicate j '"') from by simp [dupQ], ih]
    rw [show 2 * (j + 1) = 2 * j + 1 + 1 from by omega, List.replicate_succ, List.replicate_succ]

theorem exists_non_quote_decomp :
    ∀ t : List Char, (∃ c ∈ t, c ≠ '"') →
      ∃ j c t', c ≠ '"' ∧ t = List.replicate j '"' ++ c :: t' := by
  intro t
  induction t with
  | nil => rintro ⟨c, hc, _⟩; simp at hc
  | cons a t ih =>
    rintro ⟨c, hc, hcne⟩
    by_cases ha : a = '"'
    · subst ha
      have hex : ∃ c ∈ t, c ≠ '"' := by
        rcases List.mem_cons.mp hc with rfl | hmem
        · exact absurd rfl hcne
        · exact ⟨c, hmem, hcne⟩
      obtain ⟨j, c', t', hc', heq⟩ := ih hex
      exact ⟨j + 1, c', t', hc', by rw [heq, List.replicate_succ, List.cons_append]⟩
    · exact ⟨0, a, t, ha, by simp⟩

theorem parse_quoted_cell (delim : Char) (t : List Char) (hne : ∃ c ∈ t, c ≠ '"')
    (xs : List Char) (hx : xs.head? ≠ some '"') (i f : Nat) (w : List Char)
    (cols : List CSVValue) :
    parseRowAux delim (('"' :: (dupQ t ++ ['"'])) ++ xs) ⟨i, f, w, false, cols⟩ =
      parseRowAux delim xs ⟨i + (dupQ t).length + 2, f, w ++ t, false, cols⟩ := by
  obtain ⟨j, c, t', hc, rfl⟩ := exists_non_quote_decomp t hne
  have hdup : dupQ (List.replicate j '"' ++ c :: t') =
      List.replicate (2 * j) '"' ++ c :: dupQ t' := by
    rw [dupQ_append, dupQ_replicate_quote]
    simp [dupQ, hc]
  rw [hdup]
  have hshape : ('"' :: ((List.replicate (2 * j) '"' ++ c :: dupQ t') ++ ['"'])) ++ xs =
      List.replicate (2 * j + 1) '"' ++ c :: (dupQ t' ++ '"' :: xs) := by
    rw [show List.replicate (2 * j + 1) '"' = '"' :: List.replicate (2 * j) '"' from
      List.replicate_succ '"' (2 * j)]
    simp
  rw [hshape, parse_open_run delim j c hc]
  rw [parse_cons_step delim c _ _ (by simp [hc])]
  rw [show scanChar delim c ⟨i + 2 * j + 1, f, w ++ List.replicate j '"', true, cols⟩ =
      ⟨i + 2 * j + 1 + 1, f, (w ++ List.replicate j '"') ++ [c], true, cols⟩ from by
    simp [scanChar, hc]]
  rw [parse_inside delim t' xs hx]
  have hst : (⟨i + 2 * j + 1 + 1 + (dupQ t').length + 1, f,
      ((w ++ List.replicate j '"') ++ [c]) ++ t', false, cols⟩ : ScanState) =
      ⟨i + (List.replicate (2 * j) '"' ++ c :: dupQ t').length + 2, f,
        w ++ (List.replicate j '"' ++ c :: t'), false, cols⟩ := by
    simp only [ScanState.mk.injEq, and_true, true_and]
    constructor
    · simp only [List.length_append, List.length_replicate, List.length_cons]
      omega
    · simp [List.append_assoc]
  rw [hst]

theorem parse_plain_run (delim : Char) :
    ∀ (t : List Char), (∀ c ∈ t, c ≠ '"' ∧ c ≠ delim) →
      ∀ (xs : List Char) (i f : Nat) (w : List Char) (cols : List CSVValue),
      parseRowAux delim (t ++ xs) ⟨i, f, w, false, cols⟩ =
        parseRowAux delim xs ⟨i + t.length, f, w ++ t, false, cols⟩ := by
  intro t
  induction t with
  | nil => intro _ xs i f w cols; simp
  | cons c t' ih =>
    intro h xs i f w cols
    obtain ⟨hc1, hc2⟩ := h c (by simp)
    rw [List.cons_append, parse_cons_step delim c _ _ (by simp [hc1])]
    rw [show scanChar delim c ⟨i, f, w, false, cols⟩ = ⟨i + 1, f, w ++ [c], false, cols⟩ from by
      simp [scanChar, hc1, hc2]]
    rw [ih (fun u hu => h u (by simp [hu])) xs]
    have hst : (⟨i + 1 + t'.length, f, (w ++ [c]) ++ t', false, cols⟩ : ScanState) =
        ⟨i + (c :: t').length, f, w ++ c :: t', false, cols⟩ := by
      rw [List.append_assoc, List.singleton_append]
      simp only [ScanState.mk.injEq, and_true, true_and, List.length_cons]
      omega
    rw [hst]

theorem parse_cell (delim : Char) (hd : delim ≠ '"') (t : List Char)
    (hna : ¬(t ≠ [] ∧ ∀ c ∈ t, c = '"')) (xs : List Char) (hx : xs.head? ≠ some '"')
    (i f : Nat) (cols : List CSVValue) :
    parseRowAux delim (quoteChars delim t ++ xs) ⟨i, f, [], false, cols⟩ =
      parseRowAux delim xs ⟨i + (quoteChars delim t).length, f, t, false, cols⟩ := by
  by_cases hq : delim ∈ t ∨ '"' ∈ t
  · have hnonnil : t ≠ [] := by
      rcases hq with h | h <;> exact List.ne_nil_of_mem h
    have hex : ∃ c ∈ t, c ≠ '"' := by
      by_contra hcon
      push_neg at hcon
      exact hna ⟨hnonnil, hcon⟩
    rw [show quoteChars delim t = '"' :: (dupQ t ++ ['"']) from by simp [quoteChars, hq]]
    rw [parse_quoted_cell delim t hex xs hx]
    have hst : (⟨i + (dupQ t).length + 2, f, [] ++ t, false, cols⟩ : ScanState) =
        ⟨i + ('"' :: (dupQ t ++ ['"'])).length, f, t, false, cols⟩ := by
      simp only [ScanState.mk.injEq, and_true, true_and, List.nil_append,
        List.length_cons, List.length_append]
      simp
      omega
    rw [hst]
  · rw [show quoteChars delim t = t from by simp [quoteChars, hq]]
    push_neg at hq
    rw [parse_plain_run delim t (fun c hc =>
      ⟨fun h => hq.2 (h ▸ hc), fun h => hq.1 (h ▸ hc)⟩) xs]
    rw [show ([] ++ t : List Char) = t from by simp]

theorem parse_line_texts (delim : Char) (hd : delim ≠ '"') :
    ∀ (row : List CSVValue), row ≠ [] →
      (∀ v ∈ row, ¬(v.text.data ≠ [] ∧ ∀ c ∈ v.text.data, c = '"')) →
      ∀ (i f : Nat) (cols : List CSVValue),
      ((parseRowAux delim (formatLineChars delim row) ⟨i, f, [], false, cols⟩).cols.map
          CSVValue.text) ++
        [String.mk (parseRowAux delim (formatLineChars delim row) ⟨i, f, [], false, cols⟩).word] =
      cols.map CSVValue.text ++ row.map CSVValue.text := by
  intro row
  induction row with
  | nil => intro h; exact absurd rfl h
  | cons v vs ih =>
    intro _ hq i f cols
    cases vs with
    | nil =>
      rw [show formatLineChars delim [v] = quoteChars delim v.text.data from rfl]
      have hcell := parse_cell delim hd v.text.data (hq v (by simp)) [] (by simp) i f cols
      rw [List.append_nil] at hcell
      rw [hcell]
      rw [show parseRowAux delim [] ⟨i + (quoteChars delim v.text.data).length, f,
        v.text.data, false, cols⟩ = ⟨i + (quoteChars delim v.text.data).length, f,
        v.text.data, false, cols⟩ from rfl]
      rfl
    | cons v' vs' =>
      rw [show formatLineChars delim (v :: v' :: vs') =
          quoteChars delim v.text.data ++ delim :: formatLineChars delim (v' :: vs') from rfl]
      rw [parse_cell delim hd v.text.data (hq v (by simp)) _ (by simp [hd]) i f cols]
      rw [parse_cons_step delim delim _ _ (by simp [hd])]
      rw [show scanChar delim delim ⟨i + (quoteChars delim v.text.data).length, f,
          v.text.data, false, cols⟩ =
          ⟨i + (quoteChars delim v.text.data).length + 1,
            i + (quoteChars delim v.text.data).length + 1, [], false,
            cols ++ [⟨String.mk v.text.data, f, i + (quoteChars delim v.text.data).length⟩]⟩ from by
        simp [scanChar, hd]]
      rw [ih (by simp) (fun u hu => hq u (by simp [hu]))]
      simp

theorem pySplit_ne_nil (sep : Char) : ∀ l : List Char, pySplit sep l ≠ [] := by
  intro l
  induction l with
  | nil => simp [pySplit]
  | cons c rest ih =>
    rcases hps : pySplit sep rest with _ | ⟨h, t⟩
    · exact absurd hps ih
    · simp only [pySplit, hps]
      split <;> simp

theorem pySplit_no_sep (sep : Char) : ∀ l : List Char, sep ∉ l → pySplit sep l = [l] := by
  intro l
  induction l with
  | nil => intro _; rfl
  | cons c rest ih =>
    intro h
    have hc : ¬(c = sep) := fun hh => h (by simp [hh])
    have hrest : sep ∉ rest := fun hm => h (by simp [hm])
    simp [pySplit, ih hrest, hc]

theorem pySplit_append_sep (sep : Char) :
    ∀ (l rest : List Char), sep ∉ l →
      pySplit sep (l ++ sep :: rest) = l :: pySplit sep rest := by
  intro l
  induction l with
  | nil =>
    intro rest _
    simp only [List.nil_append, pySplit]
    rcases hps : pySplit sep rest with _ | ⟨h, t⟩
    · exact absurd hps (pySplit_ne_nil sep rest)
    · simp
  | cons c l' ih =>
    intro rest h
    have hc : ¬(c = sep) := fun hh => h (by simp [hh])
    have hl : sep ∉ l' := fun hm => h (by simp [hm])
    simp [pySplit, ih rest hl, hc]

theorem pySplit_joinSep (sep : Char) :
    ∀ ls : List (List Char), ls ≠ [] → (∀ l ∈ ls, sep ∉ l) →
      pySplit sep (joinSep sep ls) = ls := by
  intro ls
  induction ls with
  | nil => intro h; exact absurd rfl h
  | cons l ls' ih =>
    intro _ hmem
    cases ls' with
    | nil => exact pySplit_no_sep sep l (hmem l (by simp))
    | cons l2 ls'' =>
      rw [show joinSep sep (l :: l2 :: ls'') = l ++ sep :: joinSep sep (l2 :: ls'') from rfl]
      rw [pySplit_append_sep sep l _ (hmem l (by simp))]
      rw [ih (by simp) (fun u hu => hmem u (by simp [hu]))]

theorem mem_dupQ : ∀ (t : List Char) (c : Char), c ∈ dupQ t → c ∈ t := by
  intro t
  induction t with
  | nil => simp [dupQ]
  | cons a t' ih =>
    intro c hc
    by_cases ha : a = '"'
    · subst ha
      simp only [dupQ, if_pos rfl] at hc
      rcases List.mem_cons.mp hc with rfl | hc2
      · simp
      · rcases List.mem_cons.mp hc2 with rfl | hc3
        · simp
        · simpa using Or.inr (ih c hc3)
    · simp only [dupQ, if_neg ha] at hc
      rcases List.mem_cons.mp hc with rfl | hc2
      · simp
      · simpa using Or.inr (ih c hc2)

theorem mem_quoteChars (delim : Char) (t : List Char) (c : Char) :
    c ∈ quoteChars delim t → c = '"' ∨ c ∈ t := by
  unfold quoteChars
  split
  · intro hc
    rcases List.mem_cons.mp hc with rfl | hc2
    · exact Or.inl rfl
    · rcases List.mem_append.mp hc2 with h | h
      · exact Or.inr (mem_dupQ t c h)
      · exact Or.inl (by simpa using h)
  · intro hc
    exact Or.inr hc

theorem mem_formatLineChars (delim : Char) :
    ∀ (row : List CSVValue) (c : Char),
      c ∈ formatLineChars delim row → c = delim ∨ c = '"' ∨ ∃ v ∈ row, c ∈ v.text.data := by
  intro row
  induction row with
  | nil => intro c hc; simp [formatLineChars] at hc
  | cons v vs ih =>
    cases vs with
    | nil =>
      intro c hc
      rcases mem_quoteChars delim v.text.data c hc with h | h
      · exact Or.inr (Or.inl h)
      · exact Or.inr (Or.inr ⟨v, by simp, h⟩)
    | cons v' vs' =>
      intro c hc
      rw [show formatLineChars delim (v :: v' :: vs') =
          quoteChars delim v.text.data ++ delim :: formatLineChars delim (v' :: vs') from
        rfl] at hc
      rcases List.mem_append.mp hc with h | h
      · rcases mem_quoteChars delim v.text.data c h with h2 | h2
        · exact Or.inr (Or.inl h2)
        · exact Or.inr (Or.inr ⟨v, by simp, h2⟩)
      · rcases List.mem_cons.mp h with rfl | h2
        · exact Or.inl rfl
        · rcases ih c h2 with h3 | h3 | ⟨u, hu, hcu⟩
          · exact Or.inl h3
          · exact Or.inr (Or.inl h3)
          · exact Or.inr (Or.inr ⟨u, by simp [hu], hcu⟩)

theorem Finalize_rows (m : CSVMatrix) : m.Finalize.rows = m.rows := by
  unfold CSVMatrix.Finalize
  split <;> rfl

/-- C1 is false on the code: a grid whose single cell text is one quote
character formats to `""""` (four quotes), but the parser's escaped-pair rule
fires before the quoting state is consulted, so `""""` re-parses as two
literal quote characters — the cell text grows from `"` to `""`. -/
theorem C1_quote_roundtrip_counterexample :
    (CSVMatrix.Format { rows := [[⟨"\"", 0, 0⟩]], num_columns := 1, valid := true } =
      "\"\"\"\"") ∧
    ((CSVMatrix.FromText (CSVMatrix.Format
        { rows := [[⟨"\"", 0, 0⟩]], num_columns := 1, valid := true })).rows.map
          (List.map CSVValue.text) =
      [["\"\""]]) ∧
    ([["\"\""]] ≠ [["\""]]) := by
  refine ⟨by decide, by decide, by decide⟩

/-- C1 amended: re-parsing the raw-formatted text of a grid (delimiter `,`)
reproduces exactly the original cell texts — including texts containing the
delimiter, quotes, or both — provided the grid has at least one row, every row
has at least one cell, no cell text contains a newline, and no cell text is a
non-empty string consisting solely of quote characters (all-quote cells are
the counterexample; empty grids, empty rows and embedded newlines are lost to
the line structure of the format). -/
theorem C1_quote_roundtrip_amended (m : CSVMatrix)
    (hdelim : m.delimiter = ',')
    (hrows : m.rows ≠ [])
    (hrowne : ∀ row ∈ m.rows, row ≠ [])
    (hnl : ∀ row ∈ m.rows, ∀ v ∈ row, '\n' ∉ v.text.data)
    (hnq : ∀ row ∈ m.rows, ∀ v ∈ row, ¬(v.text.data ≠ [] ∧ ∀ c ∈ v.text.data, c = '"')) :
    (CSVMatrix.FromText m.Format).rows.map (List.map CSVValue.text) =
      m.rows.map (List.map CSVValue.text) := by
  have hrows_eq : (CSVMatrix.FromText m.Format).rows =
      (pySplit '\n' m.Format.data).map
        (fun line => CSVMatrix.ParseRow {} (String.mk line)) := by
    unfold CSVMatrix.FromText
    rw [Finalize_rows]
  rw [hrows_eq]
  have hfmt : m.Format.data = joinSep '\n' (m.rows.map fun row => formatLineChars ',' row) := by
    simp [CSVMatrix.Format, hdelim]
  rw [hfmt]
  rw [pySplit_joinSep '\n' _ (by simpa using hrows) ?nosep]
  case nosep =>
    intro l hl
    obtain ⟨row, hrow, rfl⟩ := List.mem_map.mp hl
    intro hmem
    rcases mem_formatLineChars ',' row '\n' hmem with h | h | ⟨v, hv, hcv⟩
    · exact absurd h (by decide)
    · exact absurd h (by decide)
    · exact hnl row hrow v hv hcv
  rw [List.map_map, List.map_map]
  apply List.map_congr_left
  intro row hrow
  simp only [Function.comp]
  have hline := parse_line_texts ',' (by decide) row (hrowne row hrow)
    (hnq row hrow) 0 0 []
  simp only [List.map_nil, List.nil_append] at hline
  show (CSVMatrix.ParseRow {} (String.mk (formatLineChars ',' row))).map CSVValue.text =
    row.map CSVValue.text
  unfold CSVMatrix.ParseRow
  rw [← hline]
  simp

/-- C1 amended, applied at a one-cell grid whose cell text `a,b"c` contains
both the delimiter and a quote: it round-trips unchanged. -/
theorem C1_quote_roundtrip_amended_witness :
    (({ rows := [[⟨"a,b\"c", 0, 0⟩]], num_columns := 1, valid := true } :
        CSVMatrix).delimiter = ',') ∧
    (CSVMatrix.FromText (CSVMatrix.Format
        { rows := [[⟨"a,b\"c", 0, 0⟩]], num_columns := 1, valid := true })).rows.map
          (List.map CSVValue.text) =
      ({ rows := [[⟨"a,b\"c", 0, 0⟩]], num_columns := 1, valid := true } :
        CSVMatrix).rows.map (List.map CSVValue.text) :=
  ⟨rfl,
    C1_quote_roundtrip_amended _ rfl (by decide) (by decide) (by decide) (by decide)⟩
